import Mathlib

/-!
Verification of the steam_bot repository's session and caching engine.

The development shallowly embeds the Go sources:
* `steam/cache.go` (TTLCache: `Get`, `Set`, `cleanupExpired`, `removeOldest`, `Size`),
* `bot/handlers.go` (deals ingestion loop, dedup tracker `sentPosts`,
  `cleanupOldEntries`, `parseCallbackData`, `HandleCallbackQuery`,
  `processSearchResults`).

Go maps `map[K]V` are modelled as association lists with unique keys
(`KeysNodup` states the invariant, which holds for every reachable state);
`time.Time` is modelled as `Nat`, with each operation receiving the value of
`time.Now()` explicitly.  `t1.After(t2)` is strict `t2 < t1`.
-/

namespace SteamBot

variable {K : Type} {β : Type} [DecidableEq K]

/-- Association-list model of a Go map read `v, ok := m[k]`:
`some v` models `ok = true`. -/
def lookup? (k : K) : List (K × β) → Option β
  | [] => none
  | p :: rest => if p.1 = k then some p.2 else lookup? k rest

/-- Association-list model of a Go map write `m[k] = v`
(replaces the binding if present, otherwise adds one). -/
def put (k : K) (v : β) : List (K × β) → List (K × β)
  | [] => [(k, v)]
  | p :: rest => if p.1 = k then (k, v) :: rest else p :: put k v rest

/-- Association-list model of Go `delete(m, k)`. -/
def eraseKey (k : K) : List (K × β) → List (K × β)
  | [] => []
  | p :: rest => if p.1 = k then rest else p :: eraseKey k rest

/-- The keys of an association list. -/
def keys (l : List (K × β)) : List K := l.map Prod.fst

theorem lookup?_put_self (k : K) (v : β) (l : List (K × β)) :
    lookup? k (put k v l) = some v := by
  induction l with
  | nil => simp [put, lookup?]
  | cons p rest ih =>
    by_cases h : p.1 = k
    · simp [put, h, lookup?]
    · simp [put, h, lookup?, ih]

theorem lookup?_put_ne (k j : K) (v : β) (l : List (K × β)) (h : j ≠ k) :
    lookup? k (put j v l) = lookup? k l := by
  induction l with
  | nil => simp [put, lookup?, h]
  | cons p rest ih =>
    by_cases hp : p.1 = j
    · simp [put, hp, lookup?, h]
    · simp [put, hp, lookup?, ih]

theorem length_put_le (k : K) (v : β) (l : List (K × β)) :
    (put k v l).length ≤ l.length + 1 := by
  induction l with
  | nil => simp [put]
  | cons p rest ih =>
    by_cases h : p.1 = k
    · simp [put, h]
    · simp only [put, h, if_false, List.length_cons]
      omega

theorem length_le_length_put (k : K) (v : β) (l : List (K × β)) :
    l.length ≤ (put k v l).length := by
  induction l with
  | nil => simp [put]
  | cons p rest ih =>
    by_cases h : p.1 = k
    · simp [put, h]
    · simp only [put, h, if_false, List.length_cons]
      omega

theorem mem_keys_put (k j : K) (v : β) (l : List (K × β)) :
    j ∈ keys (put k v l) ↔ j = k ∨ j ∈ keys l := by
  induction l with
  | nil => simp [put, keys]
  | cons p rest ih =>
    by_cases h : p.1 = k
    · simp only [put, h, if_true, keys, List.map_cons, List.mem_cons]
      tauto
    · simp only [put, h, if_false, keys, List.map_cons, List.mem_cons] at ih ⊢
      rw [ih]
      tauto

theorem keys_nodup_put (k : K) (v : β) (l : List (K × β))
    (h : (keys l).Nodup) : (keys (put k v l)).Nodup := by
  induction l with
  | nil => simp [put, keys]
  | cons p rest ih =>
    simp only [keys, List.map_cons, List.nodup_cons] at h
    by_cases hp : p.1 = k
    · simp only [put, hp, if_true, keys, List.map_cons, List.nodup_cons]
      exact ⟨hp ▸ h.1, h.2⟩
    · simp only [put, hp, if_false, keys, List.map_cons, List.nodup_cons]
      refine ⟨fun hc => ?_, ih h.2⟩
      rcases (mem_keys_put k p.1 v rest).mp hc with h1 | h1
      · exact hp h1
      · exact h.1 h1

theorem length_eraseKey_of_mem (k : K) (l : List (K × β))
    (h : k ∈ keys l) : (eraseKey k l).length + 1 = l.length := by
  induction l with
  | nil => simp [keys] at h
  | cons p rest ih =>
    by_cases hp : p.1 = k
    · simp [eraseKey, hp]
    · simp only [keys, List.map_cons, List.mem_cons] at h
      rcases h with h | h
      · exact absurd h.symm hp
      · simp only [eraseKey, hp, if_false, List.length_cons]
        rw [← ih h]

theorem lookup?_isSome_iff_mem_keys (k : K) (l : List (K × β)) :
    (lookup? k l).isSome = true ↔ k ∈ keys l := by
  induction l with
  | nil => simp [lookup?, keys]
  | cons p rest ih =>
    by_cases hp : p.1 = k
    · simp [lookup?, hp, keys]
    · have hp2 : ¬ (k = p.1) := fun h => hp h.symm
      simp only [lookup?, hp, if_false, keys, List.map_cons, List.mem_cons] at ih ⊢
      rw [ih]
      tauto

/-- Ordering used by the eviction routines: compare two map entries by a
numeric timestamp drawn from the value (the Go code sorts ascending, calling
`entries[i].expiresAt.After(entries[j].expiresAt)` resp. `.time.After` and
swapping, i.e. oldest first). -/
def byNatLE (f : β → Nat) (a b : K × β) : Prop := f a.2 ≤ f b.2

instance (f : β → Nat) : DecidableRel ((byNatLE f) : K × β → K × β → Prop) :=
  fun a b => Nat.decLe (f a.2) (f b.2)

instance (f : β → Nat) : IsTotal (K × β) (byNatLE f) :=
  ⟨fun a b => Nat.le_total (f a.2) (f b.2)⟩

instance (f : β → Nat) : IsTrans (K × β) (byNatLE f) :=
  ⟨fun _ _ _ hab hbc => Nat.le_trans hab hbc⟩

theorem mem_keys_of_mem (p : K × β) (l : List (K × β)) (h : p ∈ l) : p.1 ∈ keys l :=
  List.mem_map_of_mem Prod.fst h

/-- Shared model of `TTLCache.removeOldest` and `cleanupOldEntries`: both Go
routines copy the map into a slice, sort it ascending by timestamp with a
quadratic exchange sort, and `delete` the keys of the first `rc` slice elements
from the map.  (The Go sort's tie order depends on nondeterministic map
iteration; the model fixes one ascending reordering via `insertionSort`.) -/
def removeOldestBy (f : β → Nat) (rc : Nat) (l : List (K × β)) : List (K × β) :=
  l.filter (fun p => decide (p.1 ∉ keys ((List.insertionSort (byNatLE f) l).take rc)))

theorem mem_of_mem_removeOldestBy (f : β → Nat) (rc : Nat) (l : List (K × β))
    (q : K × β) (h : q ∈ removeOldestBy f rc l) : q ∈ l :=
  List.mem_of_mem_filter h

theorem keys_nodup_filter (g : K × β → Bool) (l : List (K × β))
    (hnd : (keys l).Nodup) : (keys (l.filter g)).Nodup :=
  List.Nodup.sublist (List.Sublist.map Prod.fst (List.filter_sublist l)) hnd

theorem keys_nodup_removeOldestBy (f : β → Nat) (rc : Nat) (l : List (K × β))
    (hnd : (keys l).Nodup) : (keys (removeOldestBy f rc l)).Nodup :=
  keys_nodup_filter _ l hnd

theorem length_removeOldestBy (f : β → Nat) (rc : Nat) (l : List (K × β))
    (hnd : (keys l).Nodup) :
    (removeOldestBy f rc l).length = l.length - rc := by
  simp only [removeOldestBy]
  set s := List.insertionSort (byNatLE f) l with hs
  set P := fun p : K × β => decide (p.1 ∉ keys (s.take rc)) with hP
  have hperm : List.Perm s l := List.perm_insertionSort (byNatLE f) l
  have hpf : List.Perm (s.filter P) (l.filter P) := hperm.filter P
  have hknd : (keys s).Nodup := (List.Perm.nodup_iff (hperm.map Prod.fst)).mpr hnd
  have hsplit : s.take rc ++ s.drop rc = s := List.take_append_drop rc s
  have hdisj : List.Disjoint (keys (s.take rc)) (keys (s.drop rc)) := by
    have h2 : (keys (s.take rc) ++ keys (s.drop rc)).Nodup := by
      have h3 := hknd
      rw [← hsplit] at h3
      simpa [keys, List.map_append] using h3
    exact (List.nodup_append.mp h2).2.2
  have htake : (s.take rc).filter P = [] := by
    apply List.filter_eq_nil_iff.mpr
    intro p hp
    simp only [hP, decide_eq_true_eq, not_not]
    exact mem_keys_of_mem p _ hp
  have hdrop : (s.drop rc).filter P = s.drop rc := by
    apply List.filter_eq_self.mpr
    intro p hp
    simp only [hP, decide_eq_true_eq]
    exact fun hcon => hdisj hcon (mem_keys_of_mem p _ hp)
  have hfl : s.filter P = s.drop rc := by
    conv_lhs => rw [← hsplit]
    rw [List.filter_append, htake, hdrop, List.nil_append]
  rw [← hpf.length_eq, hfl, List.length_drop, hperm.length_eq]

theorem removeOldestBy_removed_le_kept (f : β → Nat) (rc : Nat) (l : List (K × β))
    (hnd : (keys l).Nodup) :
    ∀ p ∈ l, p ∉ removeOldestBy f rc l →
      ∀ q ∈ removeOldestBy f rc l, f p.2 ≤ f q.2 := by
  intro p hpl hpr q hqr
  simp only [removeOldestBy] at hpr hqr
  set s := List.insertionSort (byNatLE f) l with hs
  set P := fun p : K × β => decide (p.1 ∉ keys (s.take rc)) with hP
  have hperm : List.Perm s l := List.perm_insertionSort (byNatLE f) l
  have hknd : (keys s).Nodup := (List.Perm.nodup_iff (hperm.map Prod.fst)).mpr hnd
  have hsplit : s.take rc ++ s.drop rc = s := List.take_append_drop rc s
  have hdisj : List.Disjoint (keys (s.take rc)) (keys (s.drop rc)) := by
    have h2 : (keys (s.take rc) ++ keys (s.drop rc)).Nodup := by
      have h3 := hknd
      rw [← hsplit] at h3
      simpa [keys, List.map_append] using h3
    exact (List.nodup_append.mp h2).2.2
  -- the removed entry has its key among the victims
  have hpv : p.1 ∈ keys (s.take rc) := by
    by_contra hcon
    exact hpr (List.mem_filter.mpr ⟨hpl, by simp only [hP, decide_eq_true_eq]; exact hcon⟩)
  -- the kept entry's key is not among the victims
  have hqv : q.1 ∉ keys (s.take rc) := by
    have h4 := (List.mem_filter.mp hqr).2
    simpa [hP] using h4
  -- locate p in the take part and q in the drop part of the sorted list
  have hpin : p ∈ s.take rc := by
    have hps : p ∈ s := hperm.mem_iff.mpr hpl
    rw [← hsplit] at hps
    rcases List.mem_append.mp hps with h | h
    · exact h
    · exact absurd (mem_keys_of_mem p _ h) (fun hm => hdisj hpv hm)
  have hqin : q ∈ s.drop rc := by
    have hqs : q ∈ s := hperm.mem_iff.mpr (List.mem_of_mem_filter hqr)
    rw [← hsplit] at hqs
    rcases List.mem_append.mp hqs with h | h
    · exact absurd (mem_keys_of_mem q _ h) hqv
    · exact h
  have hsorted : List.Pairwise (byNatLE f) (s.take rc ++ s.drop rc) := by
    rw [hsplit]
    exact List.sorted_insertionSort (byNatLE f) l
  exact (List.pairwise_append.mp hsorted).2.2 p hpin q hqin

/-! ### TTLCache (steam cache.go) -/

/-- Go `CacheEntry[T]`: cached data plus expiration time. -/
structure CacheEntry (V : Type) where
  data : V
  expiresAt : Nat
  deriving DecidableEq

/-- Go `TTLCache[K,V]`: the map `data`, the configured `ttl`, `maxSize` and
`cleanupN` (number of oldest items to remove on cleanup).  The `sync.RWMutex`
serialises operations; the model is the sequential semantics under the lock. -/
structure TTLCache (K V : Type) where
  data : List (K × CacheEntry V)
  ttl : Nat
  maxSize : Nat
  cleanupN : Nat
  deriving DecidableEq

variable {V : Type}

/-- Go `NewTTLCache` after the functional options have been applied: an empty
map with the chosen `ttl`, `maxSize` and `cleanupN` (the unconfigured defaults
are 10 minutes, 100 and 25). -/
def NewTTLCache (ttl maxSize cleanupN : Nat) : TTLCache K V :=
  ⟨[], ttl, maxSize, cleanupN⟩

/-- Go `TTLCache.Size`: `len(c.data)`. -/
def TTLCache.size (c : TTLCache K V) : Nat := c.data.length

/-- The Go map invariant: keys of the association list are unique. -/
def KeysNodup (c : TTLCache K V) : Prop := (keys c.data).Nodup

instance (c : TTLCache K V) : Decidable (KeysNodup c) :=
  inferInstanceAs (Decidable ((keys c.data).Nodup))

/-- Go `TTLCache.Get`: a missing key returns the zero value and `false`
(modelled as `none`); an entry with `time.Now().After(entry.ExpiresAt)`
(strictly past expiry) is deleted and reported as a miss; otherwise the data
is returned.  The pair is (returned value, cache after the call). -/
def TTLCache.get (c : TTLCache K V) (key : K) (now : Nat) :
    Option V × TTLCache K V :=
  match lookup? key c.data with
  | none => (none, c)
  | some entry =>
    if entry.expiresAt < now then (none, { c with data := eraseKey key c.data })
    else (some entry.data, c)

/-- Go `TTLCache.cleanupExpired`: delete every entry with
`now.After(entry.ExpiresAt)`. -/
def TTLCache.cleanupExpired (c : TTLCache K V) (now : Nat) : TTLCache K V :=
  { c with data := c.data.filter (fun p => decide (¬ p.2.expiresAt < now)) }

/-- Go `TTLCache.removeOldest`: sort all entries by expiry (soonest first) and
delete the first `min(cleanupN, len(entries))` of them. -/
def TTLCache.removeOldest (c : TTLCache K V) [DecidableEq K] : TTLCache K V :=
  { c with data := removeOldestBy CacheEntry.expiresAt (min c.cleanupN c.data.length) c.data }

/-- The eviction pass at the top of Go `TTLCache.Set`: if `len(c.data) >=
c.maxSize`, clean up expired entries, and if still at max remove the oldest. -/
def TTLCache.evictIfFull (c : TTLCache K V) (now : Nat) [DecidableEq K] : TTLCache K V :=
  if c.maxSize ≤ c.data.length then
    (if c.maxSize ≤ (c.cleanupExpired now).data.length
     then (c.cleanupExpired now).removeOldest
     else c.cleanupExpired now)
  else c

/-- The final map write of Go `TTLCache.Set`:
`c.data[key] = CacheEntry{Data: value, ExpiresAt: time.Now().Add(c.ttl)}`. -/
def TTLCache.insertEntry (key : K) (value : V) (now : Nat) (c : TTLCache K V)
    [DecidableEq K] : TTLCache K V :=
  { c with data := put key ⟨value, now + c.ttl⟩ c.data }

/-- Go `TTLCache.Set`: eviction pass when at capacity, then insert/overwrite. -/
def TTLCache.set (c : TTLCache K V) (key : K) (value : V) (now : Nat)
    [DecidableEq K] : TTLCache K V :=
  TTLCache.insertEntry key value now (c.evictIfFull now)

/-- A sequence of `Set` calls, each with its key, value and clock reading. -/
def runSets (c : TTLCache K V) [DecidableEq K] :
    List (K × V × Nat) → TTLCache K V
  | [] => c
  | op :: rest => runSets (c.set op.1 op.2.1 op.2.2) rest

theorem ttl_cleanupExpired (c : TTLCache K V) (now : Nat) :
    (c.cleanupExpired now).ttl = c.ttl := rfl

theorem ttl_removeOldest (c : TTLCache K V) : c.removeOldest.ttl = c.ttl := rfl

theorem ttl_evictIfFull (c : TTLCache K V) (now : Nat) :
    (c.evictIfFull now).ttl = c.ttl := by
  unfold TTLCache.evictIfFull
  split
  · split
    · rfl
    · rfl
  · rfl

theorem maxSize_evictIfFull (c : TTLCache K V) (now : Nat) :
    (c.evictIfFull now).maxSize = c.maxSize := by
  unfold TTLCache.evictIfFull
  split
  · split
    · rfl
    · rfl
  · rfl

theorem cleanupN_evictIfFull (c : TTLCache K V) (now : Nat) :
    (c.evictIfFull now).cleanupN = c.cleanupN := by
  unfold TTLCache.evictIfFull
  split
  · split
    · rfl
    · rfl
  · rfl

theorem maxSize_set (c : TTLCache K V) (key : K) (value : V) (now : Nat) :
    (c.set key value now).maxSize = c.maxSize := by
  unfold TTLCache.set TTLCache.insertEntry
  simp [maxSize_evictIfFull]

theorem cleanupN_set (c : TTLCache K V) (key : K) (value : V) (now : Nat) :
    (c.set key value now).cleanupN = c.cleanupN := by
  unfold TTLCache.set TTLCache.insertEntry
  simp [cleanupN_evictIfFull]

theorem keysNodup_cleanupExpired (c : TTLCache K V) (now : Nat)
    (h : KeysNodup c) : KeysNodup (c.cleanupExpired now) :=
  keys_nodup_filter _ _ h

theorem keysNodup_removeOldest (c : TTLCache K V)
    (h : KeysNodup c) : KeysNodup c.removeOldest :=
  keys_nodup_removeOldestBy _ _ _ h

theorem keysNodup_evictIfFull (c : TTLCache K V) (now : Nat)
    (h : KeysNodup c) : KeysNodup (c.evictIfFull now) := by
  unfold TTLCache.evictIfFull
  split
  · split
    · exact keysNodup_removeOldest _ (keysNodup_cleanupExpired _ _ h)
    · exact keysNodup_cleanupExpired _ _ h
  · exact h

theorem keysNodup_set (c : TTLCache K V) (key : K) (value : V) (now : Nat)
    (h : KeysNodup c) : KeysNodup (c.set key value now) :=
  keys_nodup_put _ _ _ (keysNodup_evictIfFull _ _ h)

theorem size_cleanupExpired_le (c : TTLCache K V) (now : Nat) :
    (c.cleanupExpired now).size ≤ c.size :=
  List.length_filter_le _ _

theorem size_removeOldest (c : TTLCache K V) (h : KeysNodup c) :
    c.removeOldest.size = c.size - min c.cleanupN c.size :=
  length_removeOldestBy _ _ _ h

theorem size_set_le (c : TTLCache K V) (key : K) (value : V) (now : Nat)
    (hnd : KeysNodup c) (h1 : 1 ≤ c.maxSize) (h2 : 1 ≤ c.cleanupN)
    (hs : c.size ≤ c.maxSize) : (c.set key value now).size ≤ c.maxSize := by
  have hput : (c.set key value now).size ≤ (c.evictIfFull now).size + 1 :=
    length_put_le _ _ _
  unfold TTLCache.evictIfFull at hput
  by_cases hb : c.maxSize ≤ c.data.length
  · rw [if_pos hb] at hput
    by_cases hb2 : c.maxSize ≤ (c.cleanupExpired now).data.length
    · rw [if_pos hb2] at hput
      have hclean : (c.cleanupExpired now).size ≤ c.size := size_cleanupExpired_le c now
      have hro : (c.cleanupExpired now).removeOldest.size =
          (c.cleanupExpired now).size - min (c.cleanupExpired now).cleanupN (c.cleanupExpired now).size :=
        size_removeOldest _ (keysNodup_cleanupExpired _ _ hnd)
      have hcn : (c.cleanupExpired now).cleanupN = c.cleanupN := rfl
      have hsz : (c.cleanupExpired now).size = (c.cleanupExpired now).data.length := rfl
      have hcs : c.size = c.data.length := rfl
      rw [hro, hcn] at hput
      have hmin : 1 ≤ min c.cleanupN (c.cleanupExpired now).size := by
        refine le_min h2 ?_
        rw [hsz]; omega
      omega
    · rw [if_neg hb2] at hput
      have hsz : (c.cleanupExpired now).size = (c.cleanupExpired now).data.length := rfl
      rw [← hsz] at hb2
      omega
  · rw [if_neg hb] at hput
    have hcs : c.size = c.data.length := rfl
    omega

theorem runSets_invariant (c : TTLCache K V) (ops : List (K × V × Nat))
    (h1 : 1 ≤ c.maxSize) (h2 : 1 ≤ c.cleanupN) (hnd : KeysNodup c)
    (hs : c.size ≤ c.maxSize) :
    (runSets c ops).size ≤ c.maxSize := by
  induction ops generalizing c with
  | nil => exact hs
  | cons op rest ih =>
    have hms : (c.set op.1 op.2.1 op.2.2).maxSize = c.maxSize := maxSize_set ..
    have hcn : (c.set op.1 op.2.1 op.2.2).cleanupN = c.cleanupN := cleanupN_set ..
    have := ih (c.set op.1 op.2.1 op.2.2) (hms ▸ h1) (hcn ▸ h2)
      (keysNodup_set _ _ _ _ hnd)
      (hms ▸ size_set_le _ _ _ _ hnd h1 h2 hs)
    simpa [runSets, hms] using this

/-- Claim C1, counterexample: the claim quantifies over every `cleanupN`
configuration, but with `WithCleanupCount(0)` (ttl 10, maxSize 1, cleanupN 0)
the eviction pass removes nothing, so after `Set("a",…)`, `Set("b",…)` the
size is 2 > maxSize = 1. -/
theorem claim1_counterexample :
    ¬ ((runSets (NewTTLCache 10 1 0 : TTLCache String Nat)
        [("a", 1, 0), ("b", 2, 0)]).size ≤
      (NewTTLCache 10 1 0 : TTLCache String Nat).maxSize) := by decide

/-- Claim C1, amended: for every TTLCache constructed with `maxSize ≥ 1` and
`cleanupN ≥ 1` (any ttl), and every sequence of `Set` calls, immediately after
any `Set` call completes `Size()` is at most `maxSize`. -/
theorem claim1_size_bounded {K V : Type} [DecidableEq K] (ttl ms cn : Nat)
    (ops : List (K × V × Nat)) (h1 : 1 ≤ ms) (h2 : 1 ≤ cn) :
    (runSets (NewTTLCache ttl ms cn) ops).size ≤ ms := by
  exact runSets_invariant _ ops h1 h2 (by simp [KeysNodup, NewTTLCache, keys])
    (by simp [TTLCache.size, NewTTLCache])

theorem claim1_witness :
    (runSets (NewTTLCache 10 2 1 : TTLCache String Nat)
      [("a", 1, 0), ("b", 2, 0), ("c", 3, 0)]).size ≤ 2 :=
  claim1_size_bounded 10 2 1 [("a", 1, 0), ("b", 2, 0), ("c", 3, 0)]
    (by decide) (by decide)

/-- Claim C2, counterexample: `Get` misses only when `time.Now().After(expiresAt)`
holds, i.e. strictly after expiry.  With ttl 5, an entry set at time 0 has
`expiresAt = 5`, and `Get` at `now = 5` (expiry at-or-before now) still returns
`(value, true)`, contradicting the claimed miss. -/
theorem claim2_counterexample :
    ((((NewTTLCache 5 10 2 : TTLCache String Nat).set "a" 1 0).get "a" 5).1 = some 1) ∧
    ((lookup? "a" ((NewTTLCache 5 10 2 : TTLCache String Nat).set "a" 1 0).data).map
      CacheEntry.expiresAt = some 5) := by decide

/-- Claim C2, amended: `Get(key)` returns `(zero value, false)` when the key is
absent, or when the stored entry's `expiresAt` is strictly before the current
time; in the expired case the entry is deleted before returning, so `Size()`
decreases by exactly one; and `Get` immediately after `Set(key, value)`, within
`ttl`, returns `(value, true)`. -/
theorem claim2_get_semantics {K V : Type} [DecidableEq K] (c : TTLCache K V)
    (key : K) (now t : Nat) (v : V) :
    (lookup? key c.data = none → c.get key now = (none, c)) ∧
    (∀ e, lookup? key c.data = some e → e.expiresAt < now →
      (c.get key now).1 = none ∧ (c.get key now).2.size + 1 = c.size) ∧
    (now ≤ t + c.ttl → ((c.set key v t).get key now).1 = some v) := by
  refine ⟨?_, ?_, ?_⟩
  · intro h
    unfold TTLCache.get
    rw [h]
  · intro e he hexp
    have hmem : key ∈ keys c.data :=
      (lookup?_isSome_iff_mem_keys key c.data).mp (by rw [he]; rfl)
    have hget : c.get key now = (none, { c with data := eraseKey key c.data }) := by
      unfold TTLCache.get
      rw [he]
      simp [hexp]
    rw [hget]
    exact ⟨rfl, length_eraseKey_of_mem key c.data hmem⟩
  · intro hle
    have hdata : (c.set key v t).data =
        put key ⟨v, t + c.ttl⟩ ((c.evictIfFull t).data) := by
      show put key ⟨v, t + (c.evictIfFull t).ttl⟩ ((c.evictIfFull t).data) = _
      rw [ttl_evictIfFull]
    have hn : ¬ t + c.ttl < now := by omega
    unfold TTLCache.get
    rw [hdata, lookup?_put_self]
    simp [hn]

theorem claim2_witness :
    ((NewTTLCache 10 5 1 : TTLCache String Nat).get "z" 3 =
      (none, NewTTLCache 10 5 1)) ∧
    ((((NewTTLCache 10 5 1 : TTLCache String Nat).set "a" 7 0).get "a" 11).1 = none ∧
     (((NewTTLCache 10 5 1 : TTLCache String Nat).set "a" 7 0).get "a" 11).2.size + 1 =
       ((NewTTLCache 10 5 1 : TTLCache String Nat).set "a" 7 0).size) ∧
    (((NewTTLCache 10 5 1 : TTLCache String Nat).set "b" 9 1).get "b" 2).1 = some 9 :=
  ⟨(claim2_get_semantics (NewTTLCache 10 5 1) "z" 3 0 7).1 (by decide),
   (claim2_get_semantics ((NewTTLCache 10 5 1 : TTLCache String Nat).set "a" 7 0)
      "a" 11 0 7).2.1 ⟨7, 10⟩ (by decide) (by decide),
   (claim2_get_semantics (NewTTLCache 10 5 1) "b" 2 1 9).2.2 (by decide)⟩

/-! Concrete TTLCache scenario from the spec (ttl 10s, maxSize 2, evictionBatch
1), with `Set` calls at clock readings 0, 1, 2. -/

def demoCache0 : TTLCache String Nat := NewTTLCache 10 2 1

def demoCache1 : TTLCache String Nat := demoCache0.set "a" 1 0

def demoCache2 : TTLCache String Nat := demoCache1.set "b" 2 1

def demoCache3 : TTLCache String Nat := demoCache2.set "c" 3 2

/-- Claim C5: when `Set` finds the entry count at or above `maxSize` it first
removes all currently-expired entries, then (if still at or over capacity)
removes the `cleanupN` entries with the soonest `expiresAt`, then inserts; the
count removed is exactly `cleanupN` whenever at least `cleanupN` entries remain
after expired-entry cleanup (`removeOldest` caps the count at the entry count).
In the concrete scenario, `set "c"` evicts the earliest-expiring of "a"/"b". -/
theorem claim5_eviction_batch :
    (∀ {K V : Type} [DecidableEq K] (c : TTLCache K V) (key : K) (v : V) (now : Nat),
      KeysNodup c → c.maxSize ≤ c.size →
      ((c.set key v now).data = put key ⟨v, now + c.ttl⟩ ((c.evictIfFull now).data) ∧
       c.evictIfFull now =
         (if c.maxSize ≤ (c.cleanupExpired now).size
          then (c.cleanupExpired now).removeOldest else c.cleanupExpired now) ∧
       (c.maxSize ≤ (c.cleanupExpired now).size → c.cleanupN ≤ (c.cleanupExpired now).size →
         ((c.cleanupExpired now).removeOldest.size =
            (c.cleanupExpired now).size - c.cleanupN ∧
          ∀ p ∈ (c.cleanupExpired now).data,
            p ∉ (c.cleanupExpired now).removeOldest.data →
            ∀ q ∈ (c.cleanupExpired now).removeOldest.data,
              p.2.expiresAt ≤ q.2.expiresAt)))) ∧
    (demoCache2.size = 2 ∧ demoCache3.size = 2 ∧
     (demoCache3.get "a" 2).1 = none ∧ (demoCache3.get "b" 2).1 = some 2 ∧
     (demoCache3.get "c" 2).1 = some 3) := by
  constructor
  · intro K V inst c key v now hnd hfull
    refine ⟨?_, ?_, ?_⟩
    · show put key ⟨v, now + (c.evictIfFull now).ttl⟩ ((c.evictIfFull now).data) = _
      rw [ttl_evictIfFull]
    · have hfull2 : c.maxSize ≤ c.data.length := hfull
      show (if c.maxSize ≤ c.data.length then _ else _) = _
      rw [if_pos hfull2]
      rfl
    · intro h1 h2
      constructor
      · rw [size_removeOldest _ (keysNodup_cleanupExpired _ _ hnd)]
        have hmin : min (c.cleanupExpired now).cleanupN (c.cleanupExpired now).size =
            c.cleanupN := Nat.min_eq_left h2
        rw [hmin]
      · intro p hp hnot q hq
        exact removeOldestBy_removed_le_kept CacheEntry.expiresAt _ _
          (keysNodup_cleanupExpired _ _ hnd) p hp hnot q hq
  · decide

theorem claim5_witness :
    (demoCache2.cleanupExpired 2).removeOldest.size =
      (demoCache2.cleanupExpired 2).size - demoCache2.cleanupN :=
  ((claim5_eviction_batch.1 demoCache2 "c" 3 2 (by decide) (by decide)).2.2
    (by decide) (by decide)).1

/-! Overwriting scenario: maxSize 2, cleanupN 1; "a" set at time 0 and "b" at
time 1 fill the cache; overwriting "b" at time 2 still evicts "a". -/

def demoOver2 : TTLCache String Nat :=
  ((NewTTLCache 10 2 1 : TTLCache String Nat).set "a" 1 0).set "b" 2 1

def demoOver3 : TTLCache String Nat := demoOver2.set "b" 99 2

/-- Claim C10: `Set` on a key already present, with the cache at or over
capacity, still runs the full eviction pass before inserting (here stated with
no entry expired, so the pass reduces to `removeOldest`): the resulting data is
the insert over `removeOldest`, the size is bounded by
`size + 1 - min cleanupN size`, and does not grow; concretely, overwriting "b"
at capacity evicts "a" and strictly decreases `Size()`. -/
theorem claim10_overwrite_eviction :
    (∀ {K V : Type} [DecidableEq K] (c : TTLCache K V) (key : K) (v : V) (now : Nat),
      KeysNodup c → key ∈ keys c.data → c.maxSize ≤ c.size →
      (∀ p ∈ c.data, ¬ p.2.expiresAt < now) → 1 ≤ c.cleanupN →
      ((c.set key v now).data = put key ⟨v, now + c.ttl⟩ (c.removeOldest.data) ∧
       (c.set key v now).size ≤ c.size + 1 - min c.cleanupN c.size ∧
       (c.set key v now).size ≤ c.size)) ∧
    (demoOver2.size = 2 ∧ "b" ∈ keys demoOver2.data ∧ demoOver3.size = 1 ∧
     demoOver3.size < demoOver2.size ∧ (demoOver3.get "b" 2).1 = some 99 ∧
     (demoOver3.get "a" 2).1 = none) := by
  constructor
  · intro K V inst c key v now hnd hmem hfull hlive hcn
    have hce : c.cleanupExpired now = c := by
      have hfe : c.data.filter (fun p => decide (¬ p.2.expiresAt < now)) = c.data :=
        List.filter_eq_self.mpr (fun p hp => by simpa using hlive p hp)
      unfold TTLCache.cleanupExpired
      rw [hfe]
    have hfull2 : c.maxSize ≤ c.data.length := hfull
    have hev : c.evictIfFull now = c.removeOldest := by
      unfold TTLCache.evictIfFull
      rw [hce, if_pos hfull2, if_pos hfull2]
    have hpos : 0 < c.size := by
      cases hcd : c.data with
      | nil => rw [hcd] at hmem; simp [keys] at hmem
      | cons a b => simp [TTLCache.size, hcd]
    have hro : c.removeOldest.size = c.size - min c.cleanupN c.size :=
      size_removeOldest c hnd
    have hminle : min c.cleanupN c.size ≤ c.size := Nat.min_le_right _ _
    have hminpos : 1 ≤ min c.cleanupN c.size := le_min hcn hpos
    refine ⟨?_, ?_, ?_⟩
    · show put key ⟨v, now + (c.evictIfFull now).ttl⟩ ((c.evictIfFull now).data) = _
      rw [hev, ttl_removeOldest]
    · have hput : (c.set key v now).size ≤ (c.evictIfFull now).size + 1 :=
        length_put_le _ _ _
      rw [hev, hro] at hput
      omega
    · have hput : (c.set key v now).size ≤ (c.evictIfFull now).size + 1 :=
        length_put_le _ _ _
      rw [hev, hro] at hput
      omega
  · decide

theorem claim10_witness : (demoOver2.set "b" 99 2).size ≤ demoOver2.size :=
  (claim10_overwrite_eviction.1 demoOver2 "b" 99 2 (by decide) (by decide)
    (by decide) (by decide) (by decide)).2.2

/-! ### Deals dedup tracker (bot/handlers.go) -/

/-- The tracker state: Go's package-level `sentPosts map[string]time.Time`
(deal ID to mark timestamp), guarded by `sentPostsMu`. -/
structure DealState where
  sentPosts : List (String × Nat)
  deriving DecidableEq

/-- Go `maxCacheSize = 200`. -/
def maxCacheSize : Nat := 200

/-- One auxiliary length fact: `put` never returns an empty list. -/
theorem one_le_length_put (k : K) (v : β) (l : List (K × β)) :
    1 ≤ (put k v l).length := by
  cases l with
  | nil => simp [put]
  | cons p rest =>
    by_cases h : p.1 = k
    · simp [put, h]
    · simp [put, h]

/-- Go `isAlreadySent`: `_, exists := sentPosts[dealID]`. -/
def isAlreadySent (s : DealState) (id : String) : Bool :=
  (lookup? id s.sentPosts).isSome

/-- Go `markAsSent`: `sentPosts[dealID] = time.Now()`. -/
def markAsSent (s : DealState) (id : String) (now : Nat) : DealState :=
  ⟨put id now s.sentPosts⟩

/-- Go `cleanupOldEntries`: no-op on an empty map; otherwise sort entries by
mark timestamp (oldest first) and delete the first
`int(float64(len(sentPosts)) * cleanupPercent)` of them.  With
`cleanupPercent = 0.5` that count is exactly `len / 2`: `float64(n)` is exact
for every realistic map size and multiplying by `0.5` only decrements the
exponent, so the truncation is `n / 2` in integers. -/
def cleanupOldEntries (s : DealState) : DealState :=
  if s.sentPosts.length = 0 then s
  else ⟨removeOldestBy (fun t => t) (s.sentPosts.length / 2) s.sentPosts⟩

/-- Go `initializeDealsCache`: if the tracker is non-empty, optionally run the
cleanup pass (when `len(sentPosts) > maxCacheSize`) and report `false`;
otherwise bulk-mark every fetched deal ID with the current time and report
`true` (first poll). -/
def initializeDealsCache (s : DealState) (deals : List String) (now : Nat) :
    DealState × Bool :=
  if 0 < s.sentPosts.length then
    (if maxCacheSize < s.sentPosts.length then cleanupOldEntries s else s, false)
  else
    (⟨deals.foldl (fun acc d => put d now acc) s.sentPosts⟩, true)

/-- The per-deal loop of Go `checkAndSendDeals`: skip deals already sent;
otherwise attempt delivery (`sendDeal`, which fetches the app details and sends
the message — `deliver d = true` models success) and mark as sent only after a
successful delivery.  The second component lists the deals actually sent. -/
def processDeals (deliver : String → Bool) (now : Nat) :
    DealState → List String → DealState × List String
  | s, [] => (s, [])
  | s, d :: rest =>
    if isAlreadySent s d then processDeals deliver now s rest
    else if deliver d then
      ((processDeals deliver now (markAsSent s d now) rest).1,
       d :: (processDeals deliver now (markAsSent s d now) rest).2)
    else processDeals deliver now s rest

/-- Go `checkAndSendDeals`: a failed fetch (`none`) ends the cycle with no
state change; the first successful poll only initializes the cache; later
polls run the delivery loop. -/
def checkAndSendDeals (deliver : String → Bool) (now : Nat) (s : DealState)
    (fetched : Option (List String)) : DealState × List String :=
  match fetched with
  | none => (s, [])
  | some deals =>
    if (initializeDealsCache s deals now).2 then
      ((initializeDealsCache s deals now).1, [])
    else processDeals deliver now (initializeDealsCache s deals now).1 deals

theorem isAlreadySent_markAsSent (s : DealState) (d j : String) (now : Nat)
    (h : isAlreadySent s d = true) :
    isAlreadySent (markAsSent s j now) d = true := by
  unfold isAlreadySent markAsSent at *
  by_cases hdj : d = j
  · subst hdj
    rw [lookup?_put_self]
    rfl
  · rw [lookup?_put_ne d j now s.sentPosts (fun he => hdj he.symm)]
    exact h

theorem processDeals_mono (deliver : String → Bool) (now : Nat)
    (s : DealState) (deals : List String) (d : String)
    (h : isAlreadySent s d = true) :
    isAlreadySent (processDeals deliver now s deals).1 d = true := by
  induction deals generalizing s with
  | nil => exact h
  | cons d2 rest ih =>
    unfold processDeals
    by_cases h1 : isAlreadySent s d2 = true
    · rw [if_pos h1]
      exact ih s h
    · rw [if_neg h1]
      by_cases h2 : deliver d2 = true
      · rw [if_pos h2]
        exact ih (markAsSent s d2 now) (isAlreadySent_markAsSent s d d2 now h)
      · rw [if_neg h2]
        exact ih s h

theorem processDeals_length_ge (deliver : String → Bool) (now : Nat)
    (s : DealState) (deals : List String) :
    s.sentPosts.length ≤ (processDeals deliver now s deals).1.sentPosts.length := by
  induction deals generalizing s with
  | nil => exact Nat.le_refl _
  | cons d2 rest ih =>
    unfold processDeals
    by_cases h1 : isAlreadySent s d2 = true
    · rw [if_pos h1]; exact ih s
    · rw [if_neg h1]
      by_cases h2 : deliver d2 = true
      · rw [if_pos h2]
        have h3 := ih (markAsSent s d2 now)
        have h4 : s.sentPosts.length ≤ (markAsSent s d2 now).sentPosts.length :=
          length_le_length_put ..
        exact le_trans h4 h3
      · rw [if_neg h2]; exact ih s

/-- Claim C3: in the per-deal loop an ID is marked seen only after its delivery
succeeds.  If delivery of `d` fails (detail fetch or send), the tracker's entry
for `d` is exactly what it was before the loop, so `d` stays eligible for
retry; if `d` is in the batch and its delivery succeeds, `d` ends up marked. -/
theorem claim3_mark_only_after_delivery (deliver : String → Bool) (now : Nat)
    (s : DealState) (deals : List String) (d : String) :
    (deliver d = false →
      lookup? d (processDeals deliver now s deals).1.sentPosts =
        lookup? d s.sentPosts) ∧
    (d ∈ deals → deliver d = true →
      isAlreadySent (processDeals deliver now s deals).1 d = true) := by
  constructor
  · intro hfail
    induction deals generalizing s with
    | nil => rfl
    | cons d2 rest ih =>
      unfold processDeals
      by_cases h1 : isAlreadySent s d2 = true
      · rw [if_pos h1]; exact ih s
      · rw [if_neg h1]
        by_cases h2 : deliver d2 = true
        · rw [if_pos h2]
          have hne : d ≠ d2 := fun he => by rw [he, h2] at hfail; cases hfail
          have hstep : lookup? d (markAsSent s d2 now).sentPosts =
              lookup? d s.sentPosts :=
            lookup?_put_ne d d2 now s.sentPosts (fun he => hne he.symm)
          rw [ih (markAsSent s d2 now), hstep]
        · rw [if_neg h2]; exact ih s
  · intro hmem hok
    induction deals generalizing s with
    | nil => cases hmem
    | cons d2 rest ih =>
      unfold processDeals
      by_cases h1 : isAlreadySent s d2 = true
      · rw [if_pos h1]
        rcases List.mem_cons.mp hmem with rfl | hrest
        · exact processDeals_mono deliver now s rest d h1
        · exact ih s hrest
      · rw [if_neg h1]
        rcases List.mem_cons.mp hmem with rfl | hrest
        · rw [if_pos hok]
          refine processDeals_mono deliver now _ rest d ?_
          unfold isAlreadySent markAsSent
          rw [lookup?_put_self]
          rfl
        · by_cases h2 : deliver d2 = true
          · rw [if_pos h2]
            exact ih (markAsSent s d2 now) hrest
          · rw [if_neg h2]
            exact ih s hrest

/-- Delivery oracle for the witness: everything succeeds except "bad". -/
def deliverDemo : String → Bool := fun x => decide (x ≠ "bad")

theorem claim3_witness :
    (lookup? "bad"
        (processDeals deliverDemo 5 ⟨[]⟩ ["good", "bad"]).1.sentPosts =
      lookup? "bad" (DealState.mk []).sentPosts) ∧
    isAlreadySent (processDeals deliverDemo 5 ⟨[]⟩ ["good", "bad"]).1 "good" = true :=
  ⟨(claim3_mark_only_after_delivery deliverDemo 5 ⟨[]⟩ ["good", "bad"] "bad").1
      (by decide),
   (claim3_mark_only_after_delivery deliverDemo 5 ⟨[]⟩ ["good", "bad"] "good").2
      (by decide) (by decide)⟩

theorem isSome_lookup?_foldl_put (k : K) (v : β) (ds : List K) (l0 : List (K × β)) :
    (lookup? k (ds.foldl (fun acc d => put d v acc) l0)).isSome = true ↔
      k ∈ ds ∨ (lookup? k l0).isSome = true := by
  induction ds generalizing l0 with
  | nil => simp
  | cons d rest ih =>
    simp only [List.foldl_cons, List.mem_cons]
    rw [ih (put d v l0)]
    by_cases hk : k = d
    · subst hk
      rw [lookup?_put_self]
      simp
    · rw [lookup?_put_ne k d v l0 (fun he => hk he.symm)]
      tauto

theorem length_foldl_put_le (v : β) (ds : List K) (l0 : List (K × β)) :
    (ds.foldl (fun acc d => put d v acc) l0).length ≤ l0.length + ds.length := by
  induction ds generalizing l0 with
  | nil => simp
  | cons d rest ih =>
    simp only [List.foldl_cons, List.length_cons]
    have h1 := ih (put d v l0)
    have h2 := length_put_le d v l0
    omega

theorem length_le_length_foldl_put (v : β) (ds : List K) (l0 : List (K × β)) :
    l0.length ≤ (ds.foldl (fun acc d => put d v acc) l0).length := by
  induction ds generalizing l0 with
  | nil => simp
  | cons d rest ih =>
    simp only [List.foldl_cons]
    exact le_trans (length_le_length_put d v l0) (ih (put d v l0))

theorem processDeals_cons (deliver : String → Bool) (now : Nat) (s : DealState)
    (d : String) (rest : List String) :
    processDeals deliver now s (d :: rest) =
      (if isAlreadySent s d then processDeals deliver now s rest
       else if deliver d then
         ((processDeals deliver now (markAsSent s d now) rest).1,
          d :: (processDeals deliver now (markAsSent s d now) rest).2)
       else processDeals deliver now s rest) := rfl

theorem checkAndSendDeals_some (deliver : String → Bool) (now : Nat)
    (s : DealState) (deals : List String) :
    checkAndSendDeals deliver now s (some deals) =
      (if (initializeDealsCache s deals now).2 then
        ((initializeDealsCache s deals now).1, [])
      else processDeals deliver now (initializeDealsCache s deals now).1 deals) := rfl

theorem initializeDealsCache_steady (s : DealState) (deals : List String) (now : Nat)
    (hpos : 0 < s.sentPosts.length) (hle : s.sentPosts.length ≤ maxCacheSize) :
    initializeDealsCache s deals now = (s, false) := by
  unfold initializeDealsCache
  rw [if_pos hpos, if_neg (by omega)]

theorem processDeals_skip (deliver : String → Bool) (now : Nat) (s : DealState)
    (ds rest : List String) (h : ∀ d ∈ ds, isAlreadySent s d = true) :
    processDeals deliver now s (ds ++ rest) = processDeals deliver now s rest := by
  induction ds with
  | nil => rfl
  | cons d tl ih =>
    rw [List.cons_append, processDeals_cons,
      if_pos (h d (List.mem_cons_self d tl))]
    exact ih (fun d2 hd2 => h d2 (List.mem_cons_of_mem d hd2))

/-- Claim C4, counterexample: the claim's second-poll scenario fails when the
first poll observes zero items — the tracker stays empty, so the next poll
(with one genuinely new item) takes the initialization branch again and emits
no signal instead of exactly one. -/
theorem claim4_counterexample :
    ¬ ((checkAndSendDeals (fun _ => true) 1
        (checkAndSendDeals (fun _ => true) 0 ⟨[]⟩ (some ([] : List String))).1
        (some ([] ++ ["x"]))).2 = ["x"]) := by decide

/-- Claim C4, amended: on the first poll with the tracker empty, every observed
ID is marked and nothing is delivered; once the tracker is non-empty it never
takes the initialization branch again and never becomes empty (one-way); and a
second poll with the same items plus exactly one new one emits exactly that one
signal — provided the first poll observed at least one and at most maxCacheSize
items (with zero items no initialization happens; past maxCacheSize the cleanup
pass may un-mark old items and re-emit them). -/
theorem claim4_first_poll_initializes :
    (∀ (deliver : String → Bool) (now : Nat) (deals : List String),
      (checkAndSendDeals deliver now ⟨[]⟩ (some deals)).2 = [] ∧
      ∀ d ∈ deals,
        isAlreadySent (checkAndSendDeals deliver now ⟨[]⟩ (some deals)).1 d = true) ∧
    (∀ (deliver : String → Bool) (now : Nat) (s : DealState) (deals : List String),
      s.sentPosts ≠ [] → (keys s.sentPosts).Nodup →
      (initializeDealsCache s deals now).2 = false ∧
      (checkAndSendDeals deliver now s (some deals)).1.sentPosts ≠ []) ∧
    (∀ (deliver : String → Bool) (t1 t2 : Nat) (deals1 : List String) (x : String),
      deals1 ≠ [] → deals1.length ≤ maxCacheSize → x ∉ deals1 → deliver x = true →
      (checkAndSendDeals deliver t2
        (checkAndSendDeals deliver t1 ⟨[]⟩ (some deals1)).1
        (some (deals1 ++ [x]))).2 = [x]) := by
  have hfirst : ∀ (deliver : String → Bool) (now : Nat) (deals : List String),
      checkAndSendDeals deliver now ⟨[]⟩ (some deals) =
        (⟨deals.foldl (fun acc d => put d now acc) []⟩, []) := by
    intro deliver now deals
    unfold checkAndSendDeals initializeDealsCache
    simp
  refine ⟨?_, ?_, ?_⟩
  · intro deliver now deals
    rw [hfirst]
    refine ⟨rfl, ?_⟩
    intro d hd
    unfold isAlreadySent
    rw [isSome_lookup?_foldl_put]
    exact Or.inl hd
  · intro deliver now s deals hne hnd
    have hpos : 0 < s.sentPosts.length := List.length_pos.mpr hne
    have hinit2 : (initializeDealsCache s deals now).2 = false := by
      unfold initializeDealsCache
      rw [if_pos hpos]
    refine ⟨hinit2, ?_⟩
    have hrun : checkAndSendDeals deliver now s (some deals) =
        processDeals deliver now (initializeDealsCache s deals now).1 deals := by
      rw [checkAndSendDeals_some, hinit2]
      simp
    have hstate : 0 < (initializeDealsCache s deals now).1.sentPosts.length := by
      unfold initializeDealsCache
      rw [if_pos hpos]
      by_cases htrig : maxCacheSize < s.sentPosts.length
      · rw [if_pos htrig]
        show 0 < (cleanupOldEntries s).sentPosts.length
        unfold cleanupOldEntries
        rw [if_neg (by omega)]
        show 0 < (removeOldestBy (fun t => t)
          (s.sentPosts.length / 2) s.sentPosts).length
        rw [length_removeOldestBy _ _ _ hnd]
        omega
      · rw [if_neg htrig]
        exact hpos
    rw [hrun]
    have hfin := processDeals_length_ge deliver now
      (initializeDealsCache s deals now).1 deals
    exact List.length_pos.mp (by omega)
  · intro deliver t1 t2 deals1 x hne hlen hnotin hx
    have hs1 : (checkAndSendDeals deliver t1 ⟨[]⟩ (some deals1)).1 =
        ⟨deals1.foldl (fun acc d => put d t1 acc) []⟩ := by
      rw [hfirst]
    have hs1le : (deals1.foldl (fun acc d => put d t1 acc) []).length ≤
        maxCacheSize := by
      have h1 := length_foldl_put_le t1 deals1 ([] : List (String × Nat))
      simp only [List.length_nil, Nat.zero_add] at h1
      omega
    have hs1pos : 0 < (deals1.foldl (fun acc d => put d t1 acc) []).length := by
      cases deals1 with
      | nil => exact absurd rfl hne
      | cons d tl =>
        simp only [List.foldl_cons]
        have h1 := length_le_length_foldl_put t1 tl (put d t1 ([] : List (String × Nat)))
        have h2 := one_le_length_put d t1 ([] : List (String × Nat))
        omega
    have hinit : initializeDealsCache ⟨deals1.foldl (fun acc d => put d t1 acc) []⟩
        (deals1 ++ [x]) t2 =
        (⟨deals1.foldl (fun acc d => put d t1 acc) []⟩, false) :=
      initializeDealsCache_steady _ _ _ hs1pos hs1le
    rw [hs1, checkAndSendDeals_some, hinit]
    simp only [if_false]
    have hall : ∀ d ∈ deals1,
        isAlreadySent ⟨deals1.foldl (fun acc d => put d t1 acc) []⟩ d = true := by
      intro d hd
      unfold isAlreadySent
      rw [isSome_lookup?_foldl_put]
      exact Or.inl hd
    rw [processDeals_skip deliver t2 _ deals1 [x] hall]
    have hxn : ¬ (isAlreadySent ⟨deals1.foldl (fun acc d => put d t1 acc) []⟩ x = true) := by
      unfold isAlreadySent
      rw [isSome_lookup?_foldl_put]
      simp [hnotin, lookup?]
    rw [processDeals_cons, if_neg hxn, if_pos hx]
    rfl

theorem claim4_witness :
    ((checkAndSendDeals (fun _ => true) 0 ⟨[]⟩ (some ["a", "b"])).2 = [] ∧
     ∀ d ∈ ["a", "b"],
       isAlreadySent (checkAndSendDeals (fun _ => true) 0 ⟨[]⟩ (some ["a", "b"])).1 d = true) ∧
    (checkAndSendDeals (fun _ => true) 1
      (checkAndSendDeals (fun _ => true) 0 ⟨[]⟩ (some ["a", "b"])).1
      (some (["a", "b"] ++ ["c"]))).2 = ["c"] :=
  ⟨claim4_first_poll_initializes.1 (fun _ => true) 0 ["a", "b"],
   claim4_first_poll_initializes.2.2 (fun _ => true) 0 1 ["a", "b"] "c"
     (by decide) (by decide) (by decide) (by decide)⟩

/-- Claim C7: once the tracker's size exceeds `maxCacheSize`, the next poll's
bookkeeping runs the cleanup pass, which removes exactly
`int(float64(size) * 0.5) = size / 2` entries (leaving `size - size / 2`),
and the removed entries are the oldest by mark timestamp: every removed entry's
timestamp is at most every retained entry's timestamp. -/
theorem claim7_cleanup_halves (s : DealState) (deals : List String) (now : Nat)
    (hnd : (keys s.sentPosts).Nodup)
    (htrig : maxCacheSize < s.sentPosts.length) :
    initializeDealsCache s deals now = (cleanupOldEntries s, false) ∧
    (cleanupOldEntries s).sentPosts.length =
      s.sentPosts.length - s.sentPosts.length / 2 ∧
    (∀ p ∈ s.sentPosts, p ∉ (cleanupOldEntries s).sentPosts →
      ∀ q ∈ (cleanupOldEntries s).sentPosts, p.2 ≤ q.2) := by
  have hcl : cleanupOldEntries s =
      ⟨removeOldestBy (fun t => t) (s.sentPosts.length / 2) s.sentPosts⟩ := by
    unfold cleanupOldEntries
    rw [if_neg (by omega)]
  refine ⟨?_, ?_, ?_⟩
  · unfold initializeDealsCache
    rw [if_pos (by omega), if_pos htrig]
  · rw [hcl]
    exact length_removeOldestBy _ _ _ hnd
  · intro p hp hnp q hq
    rw [hcl] at hnp hq
    exact removeOldestBy_removed_le_kept (fun t => t) _ _ hnd p hp hnp q hq

/-- A 201-entry tracker (margin above `maxCacheSize = 200`) for the C7 witness. -/
def bigTracker : DealState := ⟨(List.range 201).map (fun i => (toString i, i))⟩

set_option maxRecDepth 100000 in
theorem claim7_witness :
    initializeDealsCache bigTracker [] 0 = (cleanupOldEntries bigTracker, false) ∧
    (cleanupOldEntries bigTracker).sentPosts.length =
      bigTracker.sentPosts.length - bigTracker.sentPosts.length / 2 :=
  ⟨(claim7_cleanup_halves bigTracker [] 0 (by decide) (by decide)).1,
   (claim7_cleanup_halves bigTracker [] 0 (by decide) (by decide)).2.1⟩

/-! ### Callback router (bot/handlers.go: parseCallbackData, HandleCallbackQuery)

Strings are processed through their character lists; the `"_"` delimiter and
digit/sign characters are given by code point to keep everything executable. -/

def underscoreChar : Char := Char.ofNat 95

def minusChar : Char := Char.ofNat 45

def plusChar : Char := Char.ofNat 43

/-- Go `strings.Split(payload, "_")` for the single-character separator. -/
def splitChar (c : Char) : List Char → List (List Char)
  | [] => [[]]
  | x :: xs =>
    if x = c then [] :: splitChar c xs
    else
      match splitChar c xs with
      | [] => [[x]]
      | g :: gs => (x :: g) :: gs

def isDigitChar (c : Char) : Bool := 48 ≤ c.toNat && c.toNat ≤ 57

def digitsToNat (ds : List Char) : Nat :=
  ds.foldl (fun acc c => acc * 10 + (c.toNat - 48)) 0

/-- Go `strconv.ParseInt(s, 10, 64)`: an optional single sign, at least one
character, decimal digits only, and an int64 range check (out-of-range input is
an error, modelled as `none`). -/
def parseInt64 (s : List Char) : Option Int :=
  match s with
  | [] => none
  | c :: rest =>
    let sd : Int × List Char :=
      if c = minusChar then (-1, rest)
      else if c = plusChar then (1, rest) else (1, s)
    if sd.2.isEmpty then none
    else if sd.2.all isDigitChar then
      let v : Int := sd.1 * (digitsToNat sd.2 : Int)
      if -(2 ^ 63) ≤ v ∧ v ≤ 2 ^ 63 - 1 then some v else none
    else none

/-- Go `CallbackType` constants. -/
inductive CallbackType where
  | unknown
  | details
  | requirements
  | hltb
  | mySteam
  | back
  deriving DecidableEq

/-- Go `CallbackData`: parsed type, subject (app ID, or username for mysteam)
and the embedded user ID.  The zero value has type `CallbackUnknown`, empty
`AppID` and `UserID = 0`. -/
structure CallbackData where
  type : CallbackType
  appID : String
  userID : Int
  deriving DecidableEq

/-- The `prefixes` table of Go `parseCallbackData` ("more_details:" is the
legacy alias of "details:").  Go ranges over a map in arbitrary order, but no
tag can match a string another tag matches (each pair of tags differs within
the shorter tag's length), so the first match below is the only match. -/
def callbackTags : List (String × CallbackType) :=
  [("details:", CallbackType.details),
   ("more_details:", CallbackType.details),
   ("requirements:", CallbackType.requirements),
   ("hltb:", CallbackType.hltb),
   ("mysteam:", CallbackType.mySteam),
   ("back:", CallbackType.back)]

/-- The tag-matching loop of Go `parseCallbackData`: the matching tag's type
together with `strings.TrimPrefix(data, tag)`. -/
def findCallbackTag (ds : List Char) : Option (CallbackType × List Char) :=
  callbackTags.findSome? (fun p =>
    if p.1.data.isPrefixOf ds then some (p.2, ds.drop p.1.data.length) else none)

/-- Go `parseCallbackData`: unrecognized tags yield the zero value and a nil
error; recognized tags split the payload on "_" and require exactly two fields
(else error "invalid callback format"; `AppID` is only assigned afterwards)
and a parseable int64 user ID (else error "invalid user ID"). -/
def parseCallbackData (data : String) : CallbackData × Option String :=
  match findCallbackTag data.data with
  | none => (⟨CallbackType.unknown, "", 0⟩, none)
  | some (ty, payload) =>
    if h2 : (splitChar underscoreChar payload).length = 2 then
      match parseInt64 ((splitChar underscoreChar payload).get ⟨1, by omega⟩) with
      | none =>
        (⟨ty, String.mk ((splitChar underscoreChar payload).get ⟨0, by omega⟩), 0⟩,
         some "invalid user ID")
      | some uid =>
        (⟨ty, String.mk ((splitChar underscoreChar payload).get ⟨0, by omega⟩), uid⟩,
         none)
    else (⟨ty, "", 0⟩, some "invalid callback format")

/-- Observable outcome of Go `HandleCallbackQuery`.  `ignored` is the silent
`return nil` for a parse error or unknown type; `rejected` is the
`Answer("This is not for you", ShowAlert)` followed by `return nil` with no
fetch, no view-builder dispatch and no message edit; the `dispatched…`
outcomes cover the mysteam, back and fetch-then-route paths. -/
inductive RouterOutcome where
  | ignored
  | rejected
  | dispatchedMySteam (username : String)
  | dispatchedBack (appID : String)
  | dispatchedFetch (ty : CallbackType) (appID : String)
  deriving DecidableEq

/-- Go `HandleCallbackQuery` (decision structure): parse; bail out on error or
unknown; authorization check against the interacting user's ID; then the
mysteam, back, or fetch-and-route paths. -/
def handleCallbackQuery (data : String) (fromId : Int) : RouterOutcome :=
  if (parseCallbackData data).2.isSome ∨
      (parseCallbackData data).1.type = CallbackType.unknown then
    RouterOutcome.ignored
  else if (parseCallbackData data).1.userID ≠ fromId then
    RouterOutcome.rejected
  else if (parseCallbackData data).1.type = CallbackType.mySteam then
    RouterOutcome.dispatchedMySteam (parseCallbackData data).1.appID
  else if (parseCallbackData data).1.type = CallbackType.back then
    RouterOutcome.dispatchedBack (parseCallbackData data).1.appID
  else
    RouterOutcome.dispatchedFetch (parseCallbackData data).1.type
      (parseCallbackData data).1.appID

theorem parseCallbackData_ofNone (data : String)
    (h : findCallbackTag data.data = none) :
    parseCallbackData data = (⟨CallbackType.unknown, "", 0⟩, none) := by
  unfold parseCallbackData
  rw [h]

theorem parseCallbackData_ofSome (data : String) (ty : CallbackType)
    (payload : List Char) (h : findCallbackTag data.data = some (ty, payload)) :
    parseCallbackData data =
      (if h2 : (splitChar underscoreChar payload).length = 2 then
        match parseInt64 ((splitChar underscoreChar payload).get ⟨1, by omega⟩) with
        | none =>
          (⟨ty, String.mk ((splitChar underscoreChar payload).get ⟨0, by omega⟩), 0⟩,
           some "invalid user ID")
        | some uid =>
          (⟨ty, String.mk ((splitChar underscoreChar payload).get ⟨0, by omega⟩), uid⟩,
           none)
      else (⟨ty, "", 0⟩, some "invalid callback format")) := by
  unfold parseCallbackData
  rw [h]

/-- Claim C6: a decoded token with a recognized action kind and well-formed
payload (no decode error) whose embedded user ID differs from the interacting
user's ID always yields the soft "This is not for you" rejection with no
further action — no fetch, no view dispatch, no message edit. -/
theorem claim6_foreign_user_rejected (data : String) (fromId : Int)
    (herr : (parseCallbackData data).2 = none)
    (hty : (parseCallbackData data).1.type ≠ CallbackType.unknown)
    (huser : (parseCallbackData data).1.userID ≠ fromId) :
    handleCallbackQuery data fromId = RouterOutcome.rejected := by
  unfold handleCallbackQuery
  rw [if_neg (by simp [herr, hty]), if_pos huser]

theorem claim6_witness :
    handleCallbackQuery "details:10_7" 8 = RouterOutcome.rejected :=
  claim6_foreign_user_rejected "details:10_7" 8 (by decide) (by decide) (by decide)

/-- Claim C8: an unrecognized tag decodes to the Unknown kind with a nil error
and the router takes no action at all; a recognized tag with a payload that
does not split into exactly two fields, or whose user-ID field is not a valid
int64, is a decode failure surfaced as a non-nil error by the decoder. -/
theorem claim8_decode_errors :
    (∀ (data : String) (u : Int),
      (∀ p ∈ callbackTags, p.1.data.isPrefixOf data.data = false) →
      parseCallbackData data = (⟨CallbackType.unknown, "", 0⟩, none) ∧
      handleCallbackQuery data u = RouterOutcome.ignored) ∧
    (∀ (data : String) (ty : CallbackType) (payload : List Char),
      findCallbackTag data.data = some (ty, payload) →
      (splitChar underscoreChar payload).length ≠ 2 →
      (parseCallbackData data).2 = some "invalid callback format") ∧
    (∀ (data : String) (ty : CallbackType) (payload a b : List Char),
      findCallbackTag data.data = some (ty, payload) →
      splitChar underscoreChar payload = [a, b] →
      parseInt64 b = none →
      (parseCallbackData data).2 = some "invalid user ID") := by
  refine ⟨?_, ?_, ?_⟩
  · intro data u h
    have hnone : findCallbackTag data.data = none := by
      unfold findCallbackTag
      apply List.findSome?_eq_none.mpr
      intro p hp
      rw [h p hp]
      rfl
    have hparse := parseCallbackData_ofNone data hnone
    refine ⟨hparse, ?_⟩
    unfold handleCallbackQuery
    rw [if_pos (by rw [hparse]; exact Or.inr rfl)]
  · intro data ty payload hfind hsplit
    rw [parseCallbackData_ofSome data ty payload hfind, dif_neg hsplit]
  · intro data ty payload a b hfind hsp hbn
    have h2 : (splitChar underscoreChar payload).length = 2 := by rw [hsp]; rfl
    rw [parseCallbackData_ofSome data ty payload hfind, dif_pos h2]
    have hget : (splitChar underscoreChar payload).get ⟨1, by omega⟩ = b := by
      simp [hsp]
    rw [hget, hbn]

theorem claim8_witness :
    (parseCallbackData "zzz:1_2" = (⟨CallbackType.unknown, "", 0⟩, none) ∧
     handleCallbackQuery "zzz:1_2" 1 = RouterOutcome.ignored) ∧
    (parseCallbackData "details:1_2_3").2 = some "invalid callback format" ∧
    (parseCallbackData "details:1_x").2 = some "invalid user ID" :=
  ⟨claim8_decode_errors.1 "zzz:1_2" 1 (by decide),
   claim8_decode_errors.2.1 "details:1_2_3" CallbackType.details
     ("1_2_3".data) (by decide) (by decide),
   claim8_decode_errors.2.2 "details:1_x" CallbackType.details
     ("1_x".data) ("1".data) ("x".data) (by decide) (by decide) (by decide)⟩

/-! ### Bounded fan-out over search results (bot/handlers.go:
processSearchResults)

Each goroutine writes `inlineResults[i] = buildInlineResult(i, item, userID)`
into its own slot and the `WaitGroup` joins them, so the resulting slice is
deterministic and independent of completion order; the model computes the same
slot values sequentially.  `build` abstracts `buildInlineResult` (whose body
performs network calls). -/

def processSearchResultsFrom {α R : Type} (build : Nat → α → R) :
    Nat → List α → List R
  | _, [] => []
  | i, item :: rest => build i item :: processSearchResultsFrom build (i + 1) rest

/-- Go `processSearchResults`: one result slot per input item, slot `i` built
from item `i` (and the shared user ID, folded into `build`). -/
def processSearchResults {α R : Type} (build : Nat → α → R) (results : List α) :
    List R :=
  processSearchResultsFrom build 0 results

theorem processSearchResultsFrom_length {α R : Type} (build : Nat → α → R)
    (n : Nat) (l : List α) :
    (processSearchResultsFrom build n l).length = l.length := by
  induction l generalizing n with
  | nil => rfl
  | cons item rest ih =>
    unfold processSearchResultsFrom
    simp [ih]

theorem processSearchResultsFrom_getElem? {α R : Type} (build : Nat → α → R)
    (n : Nat) (l : List α) (i : Nat) (h : i < l.length) :
    (processSearchResultsFrom build n l)[i]? = some (build (n + i) (l.get ⟨i, h⟩)) := by
  induction l generalizing n i with
  | nil => cases h
  | cons item rest ih =>
    cases i with
    | zero =>
      unfold processSearchResultsFrom
      simp
    | succ j =>
      have hj : j < rest.length := by
        simpa using Nat.lt_of_succ_lt_succ h
      have := ih (n + 1) j hj
      unfold processSearchResultsFrom
      rw [List.getElem?_cons_succ, this]
      have harith : n + 1 + j = n + (j + 1) := by omega
      rw [harith]
      rfl

/-- Claim C9: for every input list of N search items the fan-out produces
exactly N results and the result at index `i` is built from the item at index
`i`, independent of task completion order (the model is completion-order-free
by construction; see the comment above). -/
theorem claim9_fanout_index_correspondence {α R : Type} (build : Nat → α → R)
    (results : List α) :
    (processSearchResults build results).length = results.length ∧
    ∀ (i : Nat) (h : i < results.length),
      (processSearchResults build results)[i]? = some (build i (results.get ⟨i, h⟩)) := by
  constructor
  · exact processSearchResultsFrom_length build 0 results
  · intro i h
    have := processSearchResultsFrom_getElem? build 0 results i h
    simpa using this

theorem claim9_witness :
    (processSearchResults (fun i x => (i, x)) ["p", "q"]).length = 2 ∧
    (processSearchResults (fun i x => (i, x)) ["p", "q"])[1]? = some (1, "q") :=
  ⟨(claim9_fanout_index_correspondence (fun i x => (i, x)) ["p", "q"]).1,
   (claim9_fanout_index_correspondence (fun i x => (i, x)) ["p", "q"]).2 1
     (by decide)⟩

end SteamBot
